import Mathlib

/-!
Verification development for the agent-deployment-service controller code:
the Kubernetes reconciliation controller in `docs/alt/main.go`, the
`KubernetesAdapter` and channel-based `Orchestrator` in
`internal/adapters/container/kubernetes.go`, shallowly embedded in Lean.
Pure decision logic is translated function-by-function from the Go source;
the internals of the vendored `k8s.io/client-go/util/workqueue` library
(not part of this repository) are modelled from their documented contract,
which the design document restates verbatim in its Work Queue section.
-/

namespace AgentDeploy

/-- model.DeploymentTask, as used by the Orchestrator and the adapter
(`kubernetes.go`): tenant, agent, container image and an action verb. -/
structure DeploymentTask where
  TenantID : String
  AgentID : String
  ContainerImg : String
  Action : String
deriving DecidableEq, Repr

/-- One container of a pod template (`corev1.Container`): only the fields the
repository's code reads or writes. -/
structure Container where
  name : String
  image : String
deriving DecidableEq, Repr

/-- Pod template of a Deployment (`corev1.PodTemplateSpec`). -/
structure PodTemplate where
  labels : List (String × String)
  containers : List Container
deriving DecidableEq, Repr

/-- `appsv1.DeploymentSpec` restricted to the fields the code touches. -/
structure DeploymentSpec where
  replicas : Int
  selector : List (String × String)
  template : PodTemplate
deriving DecidableEq, Repr

/-- `appsv1.Deployment` restricted to the fields the code touches. -/
structure Deployment where
  name : String
  labels : List (String × String)
  spec : DeploymentSpec
deriving DecidableEq, Repr

/-- Errors surfaced by the embedded adapter operations.  `indexOutOfRange`
models the Go runtime panic raised by `Containers[0]` on an empty slice. -/
inductive UpdateErr
  | getError
  | indexOutOfRange
deriving DecidableEq, Repr

/-- KubernetesAdapter.UpdateAgent (`kubernetes.go` lines 90-101): fetch the
deployment named `task.AgentID`, overwrite the image of the first container
of its pod template with `task.ContainerImg`, and submit the result.
Returns the deployment object handed to `deployments.Update`. -/
def UpdateAgent (deps : List Deployment) (task : DeploymentTask) :
    Except UpdateErr Deployment :=
  match deps.find? (fun d => d.name == task.AgentID) with
  | none => .error .getError
  | some d =>
    match d.spec.template.containers with
    | [] => .error .indexOutOfRange
    | c :: cs =>
      .ok { d with spec := { d.spec with template := { d.spec.template with
              containers := { c with image := task.ContainerImg } :: cs } } }

/-- A pod as created by K8sAdapter.Reconcile (`docs/alt/main.go`), restricted
to the fields that code sets or compares. -/
structure Pod where
  name : String
  labels : List (String × String)
  image : String
  command : List String
deriving DecidableEq, Repr

/-- Mutations the controller's reconcile path can instruct the platform
adapter to perform. -/
inductive AdapterCall
  | createPod (p : Pod)
  | deletePod (name : String)
deriving DecidableEq, Repr

/-- The pod K8sAdapter.Reconcile creates for an agent: name `<agent>-pod`,
fixed image `busybox`, fixed command, fixed labels (`main.go` lines 77-92). -/
def agentPod (agentName : String) : Pod :=
  { name := agentName ++ "-pod"
    labels := [("app", "ai-agent")]
    image := "busybox"
    command := ["sleep", "3600"] }

/-- K8sAdapter.Reconcile (`docs/alt/main.go` lines 62-99): if a pod named
`<agent>-pod` already exists, return nil touching nothing; otherwise create
the fixed busybox pod.  Result: the pod store after the call and the list of
adapter mutations performed. -/
def K8sAdapter.Reconcile (pods : List Pod) (agentName : String) :
    List Pod × List AdapterCall :=
  match pods.find? (fun p => p.name == agentName ++ "-pod") with
  | some _ => (pods, [])
  | none => (pods ++ [agentPod agentName], [AdapterCall.createPod (agentPod agentName)])

/-- An Agent custom resource as the controller reads it: namespace, name and
the desired container image carried by its spec. -/
structure Agent where
  ns : String
  name : String
  image : String
deriving DecidableEq, Repr

/-- Errors of the controller-level reconcile. -/
inductive RecErr
  | badKey
  | apiError
deriving DecidableEq, Repr

/-- Splitting a character list on the `/` separator, the executable core of
`strings.Split(key, "/")` as used by cache.SplitMetaNamespaceKey. -/
def splitOnSlash : List Char → List (List Char)
  | [] => [[]]
  | c :: rest =>
    if c = '/' then [] :: splitOnSlash rest
    else
      match splitOnSlash rest with
      | [] => [[c]]
      | g :: gs => (c :: g) :: gs

/-- cache.SplitMetaNamespaceKey: `"name"` maps to an empty namespace,
`"ns/name"` splits, anything else is an error. -/
def SplitMetaNamespaceKey (key : String) : Except RecErr (String × String) :=
  match splitOnSlash key.data with
  | [name] => .ok ("", String.mk name)
  | [ns, name] => .ok (String.mk ns, String.mk name)
  | _ => .error .badKey

/-- Controller.reconcile (`docs/alt/main.go` lines 198-214): split the key,
look the agent up in the desired-state store; when absent, log and return
nil performing no adapter call; when present, run K8sAdapter.Reconcile. -/
def Controller.reconcile (agents : List Agent) (pods : List Pod) (key : String) :
    Except RecErr (List Pod × List AdapterCall) :=
  match SplitMetaNamespaceKey key with
  | .error e => .error e
  | .ok (ns, name) =>
    match agents.find? (fun a => a.ns == ns && a.name == name) with
    | none => .ok (pods, [])
    | some agent => .ok (K8sAdapter.Reconcile pods agent.name)

/-- A concrete pod whose image has drifted from the desired state. -/
def podV1 : Pod :=
  { name := "a1-pod", labels := [("app", "ai-agent")], image := "v1", command := [] }

/-!
The controller (`docs/alt/main.go`) drains a `workqueue.RateLimitingQueue`
with a pool of worker goroutines.  The queue's internals (pending FIFO,
dirty set, processing set) are the documented contract of the vendored
client-go library, restated in the design document's Work Queue section;
they are modelled here together with the worker pool as a transition
system.
-/

/-- Resource keys, the queue's deduplication unit. -/
abbrev Key := Nat

/-- State of the rate-limiting work queue: the pending FIFO, the dirty set
(keys needing a run), the processing set (keys currently held by a worker),
and the shutdown flag. -/
structure WQ where
  queue : List Key
  dirty : List Key
  processing : List Key
  shuttingDown : Bool
deriving DecidableEq, Repr

/-- Queue `Add`: refused after shutdown; a no-op when the key is already
dirty; otherwise the key becomes dirty and is appended to the pending FIFO
unless it is currently being processed (coalescing). -/
def WQ.add (k : Key) (q : WQ) : WQ :=
  if q.shuttingDown then q
  else if k ∈ q.dirty then q
  else { q with
    dirty := k :: q.dirty
    queue := if k ∈ q.processing then q.queue else q.queue ++ [k] }

/-- A worker is idle or busy reconciling one key. -/
inductive WStatus
  | idle
  | busy (k : Key)
deriving DecidableEq, Repr

/-- Combined state of the queue and the fixed worker pool. -/
structure Sys where
  wq : WQ
  workers : List WStatus
deriving DecidableEq, Repr

/-- The keys currently being reconciled, one entry per busy worker. -/
def busyKeys (ws : List WStatus) : List Key :=
  ws.filterMap (fun w => match w with | WStatus.idle => none | WStatus.busy k => some k)

/-- Start state: empty queue, `n` idle workers. -/
def Sys.init (n : Nat) : Sys :=
  { wq := { queue := [], dirty := [], processing := [], shuttingDown := false }
    workers := List.replicate n WStatus.idle }

/-- An event-handler notification enqueues a key (`queue.Add`). -/
def Sys.enqueue (k : Key) (s : Sys) : Sys := { s with wq := s.wq.add k }

/-- Queue `Get` taken by worker `i`: the head key leaves the FIFO and the
dirty set and enters the processing set; the worker becomes busy on it. -/
def Sys.getItem (i : Nat) (k : Key) (rest : List Key) (s : Sys) : Sys :=
  { wq := { s.wq with
      queue := rest
      dirty := s.wq.dirty.erase k
      processing := k :: s.wq.processing }
    workers := s.workers.set i (WStatus.busy k) }

/-- Queue `Done` called by worker `i` after reconciling `k`: the key leaves
the processing set and, if it went dirty while in flight, re-enters the
pending FIFO exactly once. -/
def Sys.finishItem (i : Nat) (k : Key) (s : Sys) : Sys :=
  { wq := { s.wq with
      processing := s.wq.processing.erase k
      queue := if k ∈ s.wq.dirty then s.wq.queue ++ [k] else s.wq.queue }
    workers := s.workers.set i WStatus.idle }

/-- Queue `ShutDown`. -/
def Sys.shutDown (s : Sys) : Sys := { s with wq := { s.wq with shuttingDown := true } }

/-- Interleaving semantics of the controller: notifications, worker `Get`,
worker `Done` and shutdown, in any order. -/
inductive Step : Sys → Sys → Prop
  | add (k : Key) (s : Sys) : Step s (s.enqueue k)
  | get (s : Sys) (i : Nat) (k : Key) (rest : List Key)
      (hw : s.workers[i]? = some WStatus.idle)
      (hq : s.wq.queue = k :: rest) : Step s (s.getItem i k rest)
  | done (s : Sys) (i : Nat) (k : Key)
      (hw : s.workers[i]? = some (WStatus.busy k)) : Step s (s.finishItem i k)
  | shutDown (s : Sys) : Step s s.shutDown

/-- States reachable from the start state with `n` workers. -/
inductive Reachable (n : Nat) : Sys → Prop
  | init : Reachable n (Sys.init n)
  | step {s s'} (h : Reachable n s) (hs : Step s s') : Reachable n s'

/-- The inductive invariant of the queue and worker pool. -/
structure Inv (n : Nat) (s : Sys) : Prop where
  workers_len : s.workers.length = n
  queue_nodup : s.wq.queue.Nodup
  busy_nodup : (busyKeys s.workers).Nodup
  queue_busy : ∀ k ∈ s.wq.queue, k ∉ busyKeys s.workers
  proc_iff : ∀ k, k ∈ s.wq.processing ↔ k ∈ busyKeys s.workers
  proc_nodup : s.wq.processing.Nodup
  queue_dirty : ∀ k ∈ s.wq.queue, k ∈ s.wq.dirty

/-- A concrete run: two workers, keys 5 and 7 enqueued, worker 0 takes 5. -/
def sysBusy : Sys := ((Sys.init 2).enqueue 5 |>.enqueue 7).getItem 0 5 [7]

/-- The same run after worker 1 also takes key 7. -/
def sysTwoBusy : Sys := sysBusy.getItem 1 7 []

/-- Outcome of one Controller.reconcile call as processNextItem sees it:
nil or a non-nil error. -/
inductive ReconcileOutcome
  | success
  | failure
deriving DecidableEq, Repr

/-- The retry ceiling set in NewController (`main.go` line 144). -/
def maxRetries : Nat := 5

/-- Base delay of the default per-item exponential failure rate limiter
(5 milliseconds, counted in nanoseconds). -/
def baseDelayNs : Nat := 5000000

/-- Delay cap of the default per-item exponential failure rate limiter
(1000 seconds, counted in nanoseconds). -/
def maxDelayNs : Nat := 1000000000000

/-- Per-item exponential backoff: the base delay doubled per recorded
failure, capped at the maximum delay. -/
def backoffDelay (base cap failures : Nat) : Nat :=
  min (base * 2 ^ failures) cap

/-- Observable effects of one Controller.processNextItem pass on the
dequeued key: whether Forget ran, the AddRateLimited delay if any, whether
the item was dropped as exhausted, whether Done ran, and whether the worker
loop continues. -/
structure PNIEffect where
  forgot : Bool
  requeuedAfter : Option Nat
  dropped : Bool
  doneCalled : Bool
  keepGoing : Bool
deriving DecidableEq, Repr

/-- Controller.processNextItem (`main.go` lines 174-196): when Get reports
shutdown the worker loop ends; otherwise Done is deferred and, on a nil
reconcile error, Forget runs; on an error with the key's retry count below
maxRetries the key is re-enqueued via AddRateLimited with the rate
limiter's delay for that count; otherwise the error is handled and the key
is Forgotten — dropped without further retries. -/
def processNextItem (quit : Bool) (outcome : ReconcileOutcome)
    (numRequeues : Nat) : Option PNIEffect :=
  if quit then none
  else some (match outcome with
    | .success =>
      { forgot := true, requeuedAfter := none, dropped := false,
        doneCalled := true, keepGoing := true }
    | .failure =>
      if numRequeues < maxRetries then
        { forgot := false,
          requeuedAfter := some (backoffDelay baseDelayNs maxDelayNs numRequeues),
          dropped := false, doneCalled := true, keepGoing := true }
      else
        { forgot := true, requeuedAfter := none, dropped := true,
          doneCalled := true, keepGoing := true })

/-- Retry bookkeeping of the rate limiter across one processNextItem pass:
Forget resets the key's failure count to zero (on success and on drop);
AddRateLimited increments it. -/
def pniFailures (outcome : ReconcileOutcome) (f : Key → Nat) (k : Key) : Key → Nat :=
  match outcome with
  | .success => fun m => if m = k then 0 else f m
  | .failure =>
    if f k < maxRetries then fun m => if m = k then f k + 1 else f m
    else fun m => if m = k then 0 else f m

/-- Startup events of Controller.Run. -/
inductive RunEvent
  | informerStarted
  | cacheSynced
  | syncFailed
  | workerStarted (i : Nat)
  | queueShutDown
deriving DecidableEq, Repr

/-- Controller.Run (`main.go` lines 149-167) as its sequence of startup
events: the informer goroutine starts, then Run blocks on WaitForCacheSync;
on sync failure it logs and returns — the deferred queue ShutDown fires and
no worker is ever started; on success it starts the `workers` workers and
parks until the stop channel closes, after which the deferred ShutDown
fires. -/
def Controller.Run (syncOk : Bool) (workers : Nat) : List RunEvent :=
  if syncOk then
    RunEvent.informerStarted :: RunEvent.cacheSynced ::
      ((List.range workers).map RunEvent.workerStarted ++ [RunEvent.queueShutDown])
  else
    [RunEvent.informerStarted, RunEvent.syncFailed, RunEvent.queueShutDown]

/-- Status of one Orchestrator worker goroutine (`kubernetes.go`). -/
inductive OWorker
  | idle
  | busy (t : DeploymentTask)
  | stopped
deriving DecidableEq, Repr

/-- State of the Orchestrator: the buffered task channel, the worker
goroutines, whether the context has been cancelled, and whether the channel
has been closed. -/
structure Orch where
  taskQueue : List DeploymentTask
  workers : List OWorker
  cancelled : Bool
  closed : Bool
deriving DecidableEq, Repr

/-- NewOrchestrator: empty channel, `n` idle workers, context live. -/
def Orch.init (n : Nat) : Orch :=
  { taskQueue := [], workers := List.replicate n OWorker.idle,
    cancelled := false, closed := false }

/-- Channel send of SubmitTask on the open channel. -/
def Orch.submit (t : DeploymentTask) (s : Orch) : Orch :=
  { s with taskQueue := s.taskQueue ++ [t] }

/-- Shutdown's `cancel()`. -/
def Orch.cancel (s : Orch) : Orch := { s with cancelled := true }

/-- Worker `i` receives the task at the head of the channel. -/
def Orch.pick (i : Nat) (t : DeploymentTask) (rest : List DeploymentTask)
    (s : Orch) : Orch :=
  { s with taskQueue := rest, workers := s.workers.set i (OWorker.busy t) }

/-- Worker `i` returns from handleTask and loops back to its select. -/
def Orch.finish (i : Nat) (s : Orch) : Orch :=
  { s with workers := s.workers.set i OWorker.idle }

/-- Worker `i` observes ctx.Done in its select and returns (wg.Done). -/
def Orch.stopWorker (i : Nat) (s : Orch) : Orch :=
  { s with workers := s.workers.set i OWorker.stopped }

/-- Shutdown's `close(taskQueue)` after wg.Wait has returned. -/
def Orch.close (s : Orch) : Orch := { s with closed := true }

/-- Interleaving semantics of the Orchestrator (`kubernetes.go` lines
122-188).  A worker's `select` between `ctx.Done()` and `taskQueue` is
nondeterministic, so `pick` is enabled whenever the worker is idle and a
task is buffered — also after cancellation; `stopWorker` is enabled for an
idle worker once the context is cancelled; handleTask runs to completion
before the worker returns to its select, so a busy worker can only
`finish`; `closeQueue` models `close(taskQueue)`, which Shutdown performs
only after `wg.Wait()`, i.e. once every worker has returned. -/
inductive OStep : Orch → Orch → Prop
  | submit (t : DeploymentTask) (s : Orch) (h : s.closed = false) :
      OStep s (s.submit t)
  | cancel (s : Orch) : OStep s s.cancel
  | pick (s : Orch) (i : Nat) (t : DeploymentTask) (rest : List DeploymentTask)
      (hw : s.workers[i]? = some OWorker.idle)
      (hq : s.taskQueue = t :: rest) : OStep s (s.pick i t rest)
  | finish (s : Orch) (i : Nat) (t : DeploymentTask)
      (hw : s.workers[i]? = some (OWorker.busy t)) : OStep s (s.finish i)
  | stopWorker (s : Orch) (i : Nat)
      (hw : s.workers[i]? = some OWorker.idle)
      (hc : s.cancelled = true) : OStep s (s.stopWorker i)
  | closeQueue (s : Orch)
      (hc : s.cancelled = true)
      (hall : ∀ w ∈ s.workers, w = OWorker.stopped) : OStep s s.close

/-- Orchestrator states reachable from the start state with `n` workers. -/
inductive OReach (n : Nat) : Orch → Prop
  | init : OReach n (Orch.init n)
  | step {s s'} (h : OReach n s) (hs : OStep s s') : OReach n s'

/-- A concrete deployment task. -/
def task0 : DeploymentTask :=
  { TenantID := "t1", AgentID := "a1", ContainerImg := "v1", Action := "CREATE" }

/-- One worker, one buffered task, context already cancelled. -/
def orchCancelled : Orch := ((Orch.init 1).submit task0).cancel

/-- The cancelled state after the worker nonetheless picked the task. -/
def orchPicked : Orch := orchCancelled.pick 0 task0 []

/-- One worker, fully shut down: cancelled, worker exited, channel closed. -/
def orchClosed : Orch := (((Orch.init 1).cancel).stopWorker 0).close

/-- Go runtime panics the channel model can raise. -/
inductive GoPanic
  | sendOnClosedChannel
deriving DecidableEq, Repr

/-- Orchestrator.SubmitTask (`kubernetes.go` lines 179-181): an unguarded
channel send; after Shutdown has closed `taskQueue` it is a send on a
closed channel, a runtime panic; otherwise the task is appended. -/
def SubmitTask (s : Orch) (t : DeploymentTask) : Except GoPanic Orch :=
  if s.closed then .error .sendOnClosedChannel
  else .ok (s.submit t)

/-- Result of a workqueue Get: an item, the closed signal, or blocking. -/
inductive GetResult
  | item (k : Key)
  | closed
  | blocked
deriving DecidableEq, Repr

/-- Queue `Get` as observed by one worker: the head item when pending work
exists; the closed (`quit`) signal once the queue was shut down and has
drained; otherwise the call blocks. -/
def WQ.getSignal (q : WQ) : GetResult :=
  match q.queue with
  | k :: _ => .item k
  | [] => if q.shuttingDown then .closed else .blocked

/-! ### Theorems -/

/-- C1 counterexample: the desired state for agent `a1` carries image `v2`
while the existing pod runs image `v1` (drift), yet Controller.reconcile
returns Success with an empty list of adapter mutations — the Adapter's
Update is not invoked and the actual state keeps the stale image, so the
final actual state does not equal the last desired state. -/
theorem reconcile_no_update_on_drift :
    Controller.reconcile [{ ns := "", name := "a1", image := "v2" }] [podV1] "a1"
      = .ok ([podV1], []) ∧ podV1.image ≠ "v2" := by
  constructor
  · rfl
  · decide

/-- C1 (amended): K8sAdapter.Reconcile converges the actual state to the
existence of a pod named `<agent>-pod` only.  When the pod is absent it is
created with the fixed image `busybox`; when it is present — matching or
diverged alike — Reconcile performs no adapter mutation, so the pod's image
is never updated to track the desired spec.  After the call the pod always
exists. -/
theorem k8s_reconcile_ensures_existence (pods : List Pod) (agentName : String) :
    K8sAdapter.Reconcile pods agentName
      = (if (pods.find? (fun p => p.name == agentName ++ "-pod")).isSome
         then (pods, [])
         else (pods ++ [agentPod agentName],
               [AdapterCall.createPod (agentPod agentName)])) ∧
    (((K8sAdapter.Reconcile pods agentName).1.find?
        (fun p => p.name == agentName ++ "-pod")).isSome = true) := by
  unfold K8sAdapter.Reconcile
  cases hf : pods.find? (fun p => p.name == agentName ++ "-pod") with
  | none =>
    refine ⟨by simp [hf], ?_⟩
    simp only []
    rw [List.find?_isSome]
    exact ⟨agentPod agentName, by simp [agentPod]⟩
  | some p => exact ⟨by simp [hf], by simp [hf]⟩

/-- C4 counterexample: the desired-state store is empty (the agent was
deleted) while the actual pod `a1-pod` still exists; Controller.reconcile
returns Success with the pod store unchanged and no adapter call — in
particular no delete instruction is issued for the surviving workload. -/
theorem reconcile_deletion_is_noop :
    Controller.reconcile [] [podV1] "a1" = .ok ([podV1], []) ∧
    AdapterCall.deletePod podV1.name ∉ ([] : List AdapterCall) := by
  exact ⟨rfl, by simp⟩

/-- C4 (amended): whenever the key parses and the agent is absent from the
desired-state store, Controller.reconcile logs the deletion and returns
Success without instructing the Adapter to perform any mutation; the actual
pod store is returned unchanged, so an existing workload is left running. -/
theorem reconcile_absent_desired (agents : List Agent) (pods : List Pod)
    (key : String) (ns name : String)
    (hk : SplitMetaNamespaceKey key = .ok (ns, name))
    (ha : agents.find? (fun a => a.ns == ns && a.name == name) = none) :
    Controller.reconcile agents pods key = .ok (pods, []) := by
  unfold Controller.reconcile
  rw [hk]
  simp [ha]

/-- Witness for the amended C4 theorem at a concrete deleted agent. -/
theorem reconcile_absent_desired_witness :
    Controller.reconcile [] [podV1] "ns1/a2" = .ok ([podV1], []) :=
  reconcile_absent_desired [] [podV1] "ns1/a2" "ns1" "a2" rfl rfl

/-- C10: when the deployment named by the task exists and its pod template
has at least one container, UpdateAgent submits the fetched deployment with
only the first container's image replaced by the task's image: the name,
labels, replicas, selector, template labels, the first container's name and
all remaining containers are unchanged. -/
theorem UpdateAgent_frame (deps : List Deployment) (task : DeploymentTask)
    (d : Deployment) (c : Container) (cs : List Container)
    (hfind : deps.find? (fun x => x.name == task.AgentID) = some d)
    (hc : d.spec.template.containers = c :: cs) :
    UpdateAgent deps task
      = .ok { d with spec := { d.spec with template := { d.spec.template with
              containers := { c with image := task.ContainerImg } :: cs } } } ∧
    ∀ d', UpdateAgent deps task = .ok d' →
      d'.name = d.name ∧ d'.labels = d.labels ∧
      d'.spec.replicas = d.spec.replicas ∧ d'.spec.selector = d.spec.selector ∧
      d'.spec.template.labels = d.spec.template.labels ∧
      d'.spec.template.containers.map Container.name
        = d.spec.template.containers.map Container.name ∧
      (d'.spec.template.containers.head?).map Container.image
        = some task.ContainerImg ∧
      d'.spec.template.containers.tail = d.spec.template.containers.tail := by
  have heq : UpdateAgent deps task
      = .ok { d with spec := { d.spec with template := { d.spec.template with
              containers := { c with image := task.ContainerImg } :: cs } } } := by
    unfold UpdateAgent
    rw [hfind]
    simp [hc]
  refine ⟨heq, ?_⟩
  intro d' hd'
  rw [heq] at hd'
  cases hd'
  simp [hc]

/-- Witness for the C10 frame theorem at a concrete deployment store. -/
theorem UpdateAgent_frame_witness :
    UpdateAgent
        [{ name := "agent-1", labels := [("tenant", "t1")],
           spec := { replicas := 1, selector := [("agent", "agent-1")],
                     template := { labels := [("agent", "agent-1")],
                                   containers := [{ name := "agent-1", image := "v1" }] } } }]
        { TenantID := "t1", AgentID := "agent-1", ContainerImg := "v2", Action := "UPDATE" }
      = .ok { name := "agent-1", labels := [("tenant", "t1")],
              spec := { replicas := 1, selector := [("agent", "agent-1")],
                        template := { labels := [("agent", "agent-1")],
                                      containers := [{ name := "agent-1", image := "v2" }] } } } :=
  (UpdateAgent_frame _ _ _ { name := "agent-1", image := "v1" } [] (by rfl) (by rfl)).1

@[simp]
theorem busyKeys_nil : busyKeys [] = [] := rfl

@[simp]
theorem busyKeys_cons_idle (t : List WStatus) :
    busyKeys (WStatus.idle :: t) = busyKeys t := rfl

@[simp]
theorem busyKeys_cons_busy (k : Key) (t : List WStatus) :
    busyKeys (WStatus.busy k :: t) = k :: busyKeys t := rfl

theorem busyKeys_replicate (n : Nat) :
    busyKeys (List.replicate n WStatus.idle) = [] := by
  induction n with
  | zero => rfl
  | succ m ih => simpa [List.replicate_succ] using ih

theorem mem_busyKeys_of_get {ws : List WStatus} {i : Nat} {k : Key}
    (h : ws[i]? = some (WStatus.busy k)) : k ∈ busyKeys ws := by
  induction ws generalizing i with
  | nil => simp at h
  | cons w t ih =>
    cases i with
    | zero =>
      simp at h
      subst h
      simp
    | succ i =>
      simp at h
      cases w with
      | idle => simpa using ih h
      | busy m => simp [ih h]

theorem busyKeys_set_busy {ws : List WStatus} {i : Nat}
    (h : ws[i]? = some WStatus.idle) (k : Key) :
    (busyKeys (ws.set i (WStatus.busy k))).Perm (k :: busyKeys ws) := by
  induction ws generalizing i with
  | nil => simp at h
  | cons w t ih =>
    cases i with
    | zero =>
      simp at h
      subst h
      simp
    | succ i =>
      simp at h
      cases w with
      | idle => simpa using ih h
      | busy m =>
        show (busyKeys (WStatus.busy m :: t.set i (WStatus.busy k))).Perm _
        simp only [busyKeys_cons_busy]
        exact ((ih h).cons m).trans (List.Perm.swap k m (busyKeys t))

theorem busyKeys_set_idle {ws : List WStatus} {i : Nat} {k : Key}
    (h : ws[i]? = some (WStatus.busy k)) :
    (busyKeys ws).Perm (k :: busyKeys (ws.set i WStatus.idle)) := by
  induction ws generalizing i with
  | nil => simp at h
  | cons w t ih =>
    cases i with
    | zero =>
      simp at h
      subst h
      simp
    | succ i =>
      simp at h
      cases w with
      | idle => simpa using ih h
      | busy m =>
        show (busyKeys (WStatus.busy m :: t)).Perm
          (k :: busyKeys (WStatus.busy m :: t.set i WStatus.idle))
        simp only [busyKeys_cons_busy]
        exact ((ih h).cons m).trans (List.Perm.swap k m (busyKeys (t.set i WStatus.idle)))

theorem WQ.add_of_shuttingDown {q : WQ} {k : Key} (h : q.shuttingDown = true) :
    q.add k = q := by
  simp [WQ.add, h]

theorem WQ.add_of_mem_dirty {q : WQ} {k : Key} (h : k ∈ q.dirty) :
    q.add k = q := by
  simp [WQ.add, h]

theorem inv_init (n : Nat) : Inv n (Sys.init n) := by
  refine ⟨?_, ?_, ?_, ?_, ?_, ?_, ?_⟩ <;>
    simp [Sys.init, busyKeys_replicate]

theorem inv_step {n : Nat} {s s' : Sys} (hi : Inv n s) (hs : Step s s') : Inv n s' := by
  cases hs with
  | add k s =>
    by_cases hsd : s.wq.shuttingDown
    · have he : s.enqueue k = s := by
        simp [Sys.enqueue, WQ.add_of_shuttingDown hsd]
      exact he.symm ▸ hi
    · by_cases hd : k ∈ s.wq.dirty
      · have he : s.enqueue k = s := by
          simp [Sys.enqueue, WQ.add_of_mem_dirty hd]
        exact he.symm ▸ hi
      · have hsd' : s.wq.shuttingDown = false := by simpa using hsd
        by_cases hp : k ∈ s.wq.processing
        · have hque : (s.enqueue k).wq.queue = s.wq.queue := by
            simp [Sys.enqueue, WQ.add, hsd', hd, hp]
          have hdirty : (s.enqueue k).wq.dirty = k :: s.wq.dirty := by
            simp [Sys.enqueue, WQ.add, hsd', hd]
          have hproc : (s.enqueue k).wq.processing = s.wq.processing := by
            simp [Sys.enqueue, WQ.add, hsd', hd]
          have hwork : (s.enqueue k).workers = s.workers := rfl
          refine ⟨hwork ▸ hi.workers_len, hque ▸ hi.queue_nodup,
            hwork ▸ hi.busy_nodup, ?_, ?_, hproc ▸ hi.proc_nodup, ?_⟩
          · rw [hque, hwork]; exact hi.queue_busy
          · rw [hproc, hwork]; exact hi.proc_iff
          · rw [hque, hdirty]
            intro m hm
            exact List.mem_cons_of_mem _ (hi.queue_dirty m hm)
        · have hque : (s.enqueue k).wq.queue = s.wq.queue ++ [k] := by
            simp [Sys.enqueue, WQ.add, hsd', hd, hp]
          have hdirty : (s.enqueue k).wq.dirty = k :: s.wq.dirty := by
            simp [Sys.enqueue, WQ.add, hsd', hd]
          have hproc : (s.enqueue k).wq.processing = s.wq.processing := by
            simp [Sys.enqueue, WQ.add, hsd', hd]
          have hwork : (s.enqueue k).workers = s.workers := rfl
          have hknq : k ∉ s.wq.queue := fun hk => hd (hi.queue_dirty k hk)
          have hknb : k ∉ busyKeys s.workers :=
            fun hb => hp ((hi.proc_iff k).mpr hb)
          refine ⟨hwork ▸ hi.workers_len, ?_, hwork ▸ hi.busy_nodup, ?_, ?_,
            hproc ▸ hi.proc_nodup, ?_⟩
          · rw [hque]
            rw [List.nodup_append]
            exact ⟨hi.queue_nodup, List.nodup_singleton k,
              fun a ha hb => hknq ((List.mem_singleton.mp hb) ▸ ha)⟩
          · rw [hque, hwork]
            intro m hm
            rcases List.mem_append.mp hm with h1 | h2
            · exact hi.queue_busy m h1
            · exact (List.mem_singleton.mp h2) ▸ hknb
          · rw [hproc, hwork]; exact hi.proc_iff
          · rw [hque, hdirty]
            intro m hm
            rcases List.mem_append.mp hm with h1 | h2
            · exact List.mem_cons_of_mem _ (hi.queue_dirty m h1)
            · exact (List.mem_singleton.mp h2) ▸ List.mem_cons_self k s.wq.dirty
  | get s i k rest hw hq =>
    have hperm := busyKeys_set_busy hw k
    have hkq : k ∈ s.wq.queue := by rw [hq]; exact List.mem_cons_self k rest
    have hkb : k ∉ busyKeys s.workers := hi.queue_busy k hkq
    have hnodup : (k :: rest).Nodup := hq ▸ hi.queue_nodup
    have hkrest : k ∉ rest := (List.nodup_cons.mp hnodup).1
    have hrest : rest.Nodup := (List.nodup_cons.mp hnodup).2
    refine ⟨?_, hrest, ?_, ?_, ?_, ?_, ?_⟩
    · show (s.workers.set i (WStatus.busy k)).length = n
      rw [List.length_set]; exact hi.workers_len
    · show (busyKeys (s.workers.set i (WStatus.busy k))).Nodup
      rw [hperm.nodup_iff]
      exact List.nodup_cons.mpr ⟨hkb, hi.busy_nodup⟩
    · intro m hm hmb
      have hm' : m ∈ rest := hm
      have : m ∈ k :: busyKeys s.workers := hperm.mem_iff.mp hmb
      rcases List.mem_cons.mp this with h1 | h2
      · exact hkrest (h1 ▸ hm')
      · exact hi.queue_busy m (by rw [hq]; exact List.mem_cons_of_mem _ hm') h2
    · intro m
      show m ∈ k :: s.wq.processing ↔ m ∈ busyKeys (s.workers.set i (WStatus.busy k))
      rw [hperm.mem_iff]
      constructor
      · intro h
        rcases List.mem_cons.mp h with h1 | h2
        · exact h1 ▸ List.mem_cons_self _ _
        · exact List.mem_cons_of_mem _ ((hi.proc_iff m).mp h2)
      · intro h
        rcases List.mem_cons.mp h with h1 | h2
        · exact h1 ▸ List.mem_cons_self _ _
        · exact List.mem_cons_of_mem _ ((hi.proc_iff m).mpr h2)
    · show (k :: s.wq.processing).Nodup
      refine List.nodup_cons.mpr ⟨fun hkp => hkb ((hi.proc_iff k).mp hkp), hi.proc_nodup⟩
    · intro m hm
      have hm' : m ∈ rest := hm
      show m ∈ s.wq.dirty.erase k
      have hmk : m ≠ k := fun he => hkrest (he ▸ hm')
      rw [List.mem_erase_of_ne hmk]
      exact hi.queue_dirty m (by rw [hq]; exact List.mem_cons_of_mem _ hm')
  | done s i k hw =>
    have hperm := busyKeys_set_idle hw
    have hkb : k ∈ busyKeys s.workers := mem_busyKeys_of_get hw
    have hnodup' : (k :: busyKeys (s.workers.set i WStatus.idle)).Nodup := by
      rw [← hperm.nodup_iff]
      exact hi.busy_nodup
    have hknb' : k ∉ busyKeys (s.workers.set i WStatus.idle) :=
      (List.nodup_cons.mp hnodup').1
    have hb' : (busyKeys (s.workers.set i WStatus.idle)).Nodup :=
      (List.nodup_cons.mp hnodup').2
    have hmem' : ∀ m, m ∈ busyKeys (s.workers.set i WStatus.idle) →
        m ∈ busyKeys s.workers :=
      fun m hm => hperm.mem_iff.mpr (List.mem_cons_of_mem _ hm)
    have hkq : k ∉ s.wq.queue := fun hk => hi.queue_busy k hk hkb
    refine ⟨?_, ?_, hb', ?_, ?_, ?_, ?_⟩
    · show (s.workers.set i WStatus.idle).length = n
      rw [List.length_set]; exact hi.workers_len
    · show (if k ∈ s.wq.dirty then s.wq.queue ++ [k] else s.wq.queue).Nodup
      by_cases hd : k ∈ s.wq.dirty
      · rw [if_pos hd, List.nodup_append]
        exact ⟨hi.queue_nodup, List.nodup_singleton k,
          fun a ha hb => hkq ((List.mem_singleton.mp hb) ▸ ha)⟩
      · rw [if_neg hd]; exact hi.queue_nodup
    · intro m hm hmb
      have hm' : m ∈ (if k ∈ s.wq.dirty then s.wq.queue ++ [k] else s.wq.queue) := hm
      by_cases hd : k ∈ s.wq.dirty
      · rw [if_pos hd] at hm'
        rcases List.mem_append.mp hm' with h1 | h2
        · exact hi.queue_busy m h1 (hmem' m hmb)
        · exact hknb' ((List.mem_singleton.mp h2) ▸ hmb)
      · rw [if_neg hd] at hm'
        exact hi.queue_busy m hm' (hmem' m hmb)
    · intro m
      show m ∈ s.wq.processing.erase k ↔ m ∈ busyKeys (s.workers.set i WStatus.idle)
      rw [hi.proc_nodup.mem_erase_iff]
      constructor
      · rintro ⟨hmk, hmp⟩
        have h1 : m ∈ busyKeys s.workers := (hi.proc_iff m).mp hmp
        rcases List.mem_cons.mp (hperm.mem_iff.mp h1) with h2 | h3
        · exact absurd h2 hmk
        · exact h3
      · intro hm'
        exact ⟨fun he => hknb' (he ▸ hm'), (hi.proc_iff m).mpr (hmem' m hm')⟩
    · show (s.wq.processing.erase k).Nodup
      exact hi.proc_nodup.erase k
    · intro m hm
      have hm' : m ∈ (if k ∈ s.wq.dirty then s.wq.queue ++ [k] else s.wq.queue) := hm
      show m ∈ s.wq.dirty
      by_cases hd : k ∈ s.wq.dirty
      · rw [if_pos hd] at hm'
        rcases List.mem_append.mp hm' with h1 | h2
        · exact hi.queue_dirty m h1
        · exact (List.mem_singleton.mp h2) ▸ hd
      · rw [if_neg hd] at hm'
        exact hi.queue_dirty m hm'
  | shutDown s =>
    exact ⟨hi.workers_len, hi.queue_nodup, hi.busy_nodup, hi.queue_busy,
      hi.proc_iff, hi.proc_nodup, hi.queue_dirty⟩

theorem inv_reachable {n : Nat} {s : Sys} (h : Reachable n s) : Inv n s := by
  induction h with
  | init => exact inv_init n
  | step _ hs ih => exact inv_step ih hs

theorem reach_sysBusy : Reachable 2 sysBusy :=
  Reachable.step
    (Reachable.step
      (Reachable.step Reachable.init (Step.add 5 (Sys.init 2)))
      (Step.add 7 ((Sys.init 2).enqueue 5)))
    (Step.get (((Sys.init 2).enqueue 5).enqueue 7) 0 5 [7] rfl rfl)

theorem reach_sysTwoBusy : Reachable 2 sysTwoBusy :=
  Reachable.step reach_sysBusy (Step.get sysBusy 1 7 [] rfl rfl)

/-- C2: in every reachable state of the controller, the multiset of keys
being reconciled by busy workers contains no duplicate — for every key at
most one Reconcile call is executing, so the platform adapter is never
invoked concurrently for the same key — and its size is bounded by the
worker count, so distinct keys reconcile concurrently at most up to the
worker count. -/
theorem per_key_mutual_exclusion {n : Nat} {s : Sys} (h : Reachable n s) :
    (busyKeys s.workers).Nodup ∧ (busyKeys s.workers).length ≤ n := by
  have hi := inv_reachable h
  refine ⟨hi.busy_nodup, ?_⟩
  calc (busyKeys s.workers).length ≤ s.workers.length := List.length_filterMap_le _ _
    _ = n := hi.workers_len

/-- Witness: the mutual-exclusion theorem applied to a concrete reachable
state in which the two workers reconcile the two distinct keys 5 and 7
concurrently. -/
theorem per_key_mutual_exclusion_witness :
    ((busyKeys sysTwoBusy.workers).Nodup ∧ (busyKeys sysTwoBusy.workers).length ≤ 2) ∧
    busyKeys sysTwoBusy.workers = [5, 7] :=
  ⟨per_key_mutual_exclusion reach_sysTwoBusy, rfl⟩

/-- C3: in every reachable state the pending queue holds no two items for
the same key; moreover, when key `k` is in flight on worker `i` (and the
queue is not shut down), `k` is not pending, enqueuing it leaves it
not-pending (it is only marked dirty), and after the in-flight run calls
Done the key is pending exactly once — one additional reconcile run, not
zero and not more than one. -/
theorem enqueue_coalescing {n : Nat} {s : Sys} {i : Nat} {k : Key}
    (h : Reachable n s) (hw : s.workers[i]? = some (WStatus.busy k))
    (hsd : s.wq.shuttingDown = false) :
    s.wq.queue.Nodup ∧
    s.wq.queue.count k = 0 ∧
    (s.enqueue k).wq.queue.count k = 0 ∧
    ((s.enqueue k).finishItem i k).wq.queue.count k = 1 := by
  have hi := inv_reachable h
  have hkb : k ∈ busyKeys s.workers := mem_busyKeys_of_get hw
  have hkp : k ∈ s.wq.processing := (hi.proc_iff k).mpr hkb
  have hkq : k ∉ s.wq.queue := fun hk => hi.queue_busy k hk hkb
  have hcount0 : s.wq.queue.count k = 0 := List.count_eq_zero.mpr hkq
  have hque : (s.enqueue k).wq.queue = s.wq.queue := by
    by_cases hd : k ∈ s.wq.dirty <;> simp [Sys.enqueue, WQ.add, hsd, hd, hkp]
  have hdirty : k ∈ (s.enqueue k).wq.dirty := by
    by_cases hd : k ∈ s.wq.dirty <;> simp [Sys.enqueue, WQ.add, hsd, hd, hkp]
  refine ⟨hi.queue_nodup, hcount0, by rw [hque]; exact hcount0, ?_⟩
  show (if k ∈ (s.enqueue k).wq.dirty then (s.enqueue k).wq.queue ++ [k]
        else (s.enqueue k).wq.queue).count k = 1
  rw [if_pos hdirty, hque, List.count_append, hcount0]
  simp

/-- Witness: the coalescing theorem applied to the concrete reachable state
in which worker 0 is reconciling key 5. -/
theorem enqueue_coalescing_witness :
    sysBusy.wq.queue.Nodup ∧
    sysBusy.wq.queue.count 5 = 0 ∧
    (sysBusy.enqueue 5).wq.queue.count 5 = 0 ∧
    ((sysBusy.enqueue 5).finishItem 0 5).wq.queue.count 5 = 1 :=
  enqueue_coalescing reach_sysBusy rfl rfl

/-- C5: one processNextItem pass with the dequeued key's retry count: on a
nil error the worker Forgets (retry bookkeeping reset to zero) and calls
Done without requeueing; on an error with the count below the maxRetries
ceiling the key is re-enqueued via AddRateLimited with the rate-limited
backoff delay and its count increments; once the count has reached the
ceiling the item is dropped — its bookkeeping Forgotten, the error handled,
no requeue — and the worker loop continues in every case. -/
theorem retry_ceiling (f : Key → Nat) (k : Key) :
    (processNextItem false .success (f k)
        = some { forgot := true, requeuedAfter := none, dropped := false,
                 doneCalled := true, keepGoing := true } ∧
      pniFailures .success f k k = 0) ∧
    (f k < maxRetries →
      processNextItem false .failure (f k)
        = some { forgot := false,
                 requeuedAfter := some (backoffDelay baseDelayNs maxDelayNs (f k)),
                 dropped := false, doneCalled := true, keepGoing := true } ∧
      pniFailures .failure f k k = f k + 1) ∧
    (maxRetries ≤ f k →
      processNextItem false .failure (f k)
        = some { forgot := true, requeuedAfter := none, dropped := true,
                 doneCalled := true, keepGoing := true } ∧
      pniFailures .failure f k k = 0) := by
  refine ⟨⟨rfl, by simp [pniFailures]⟩, fun hlt => ⟨?_, ?_⟩, fun hge => ⟨?_, ?_⟩⟩
  · simp [processNextItem, hlt]
  · simp [pniFailures, hlt]
  · simp [processNextItem, Nat.not_lt.mpr hge]
  · simp [pniFailures, Nat.not_lt.mpr hge]

/-- Witness: the retry-ceiling theorem applied at a retry count of 0 (below
the ceiling, requeued with the base backoff) and at the ceiling 5 (dropped,
bookkeeping reset). -/
theorem retry_ceiling_witness :
    (processNextItem false .failure 0
        = some { forgot := false,
                 requeuedAfter := some (backoffDelay baseDelayNs maxDelayNs 0),
                 dropped := false, doneCalled := true, keepGoing := true } ∧
      pniFailures .failure (fun _ => 0) 9 9 = 1) ∧
    (processNextItem false .failure 5
        = some { forgot := true, requeuedAfter := none, dropped := true,
                 doneCalled := true, keepGoing := true } ∧
      pniFailures .failure (fun _ => 5) 9 9 = 0) :=
  ⟨(retry_ceiling (fun _ => 0) 9).2.1 (by decide),
   (retry_ceiling (fun _ => 5) 9).2.2 (by decide)⟩

/-- C8: the per-item backoff delay is monotonically non-decreasing in the
retry count (the base delay doubles per retry, capped at the maximum), and
after a success Forget resets the key's retry counter to zero, so the next
computed delay is the base delay again. -/
theorem backoff_monotone (base cap m n' : Nat) (f : Key → Nat) (k : Key)
    (hb : base ≤ cap) (hmn : m ≤ n') :
    backoffDelay base cap m ≤ backoffDelay base cap n' ∧
    pniFailures .success f k k = 0 ∧
    backoffDelay base cap (pniFailures .success f k k) = base := by
  have hreset : pniFailures .success f k k = 0 := by simp [pniFailures]
  refine ⟨?_, hreset, ?_⟩
  · exact min_le_min
      (Nat.mul_le_mul_left base (Nat.pow_le_pow_right (by norm_num) hmn)) le_rfl
  · rw [hreset]
    simp [backoffDelay, Nat.min_eq_left hb]

/-- Witness: backoff monotonicity and the Forget reset at the controller's
default rate-limiter parameters. -/
theorem backoff_monotone_witness :
    backoffDelay baseDelayNs maxDelayNs 1 ≤ backoffDelay baseDelayNs maxDelayNs 3 ∧
    pniFailures .success (fun _ => 7) 4 4 = 0 ∧
    backoffDelay baseDelayNs maxDelayNs (pniFailures .success (fun _ => 7) 4 4)
      = baseDelayNs :=
  backoff_monotone baseDelayNs maxDelayNs 1 3 (fun _ => 7) 4 (by decide) (by decide)

/-- C6: in the Controller.Run startup sequence no worker-start event ever
precedes the cache-sync event, and when the cache sync fails no worker is
started at all — Run returns (the deferred queue ShutDown firing) without
ever reconciling. -/
theorem workers_start_after_sync (syncOk : Bool) (w : Nat) :
    (syncOk = false → ∀ i, RunEvent.workerStarted i ∉ Controller.Run syncOk w) ∧
    (∀ l1 i l2, Controller.Run syncOk w = l1 ++ RunEvent.workerStarted i :: l2 →
      RunEvent.cacheSynced ∈ l1) := by
  constructor
  · intro hs i
    subst hs
    simp [Controller.Run]
  · intro l1 i l2 heq
    cases syncOk with
    | false =>
      exfalso
      have hmem : RunEvent.workerStarted i ∈ Controller.Run false w := by
        rw [heq]
        exact List.mem_append_right _ (List.mem_cons_self _ _)
      simp [Controller.Run] at hmem
    | true =>
      cases l1 with
      | nil => simp [Controller.Run] at heq
      | cons a l1' =>
        cases l1' with
        | nil => simp [Controller.Run] at heq
        | cons b l1'' =>
          have hb : b = RunEvent.cacheSynced := by
            simp [Controller.Run] at heq
            tauto
          rw [hb]
          exact List.mem_cons_of_mem a (List.mem_cons_self _ _)

/-- Witness: no worker-start event occurs in the failed-sync trace, and in
a successful one-worker trace the prefix before the worker start contains
the cache-sync event. -/
theorem workers_start_after_sync_witness :
    (RunEvent.workerStarted 0 ∉ Controller.Run false 3) ∧
    RunEvent.cacheSynced ∈ [RunEvent.informerStarted, RunEvent.cacheSynced] :=
  ⟨(workers_start_after_sync false 3).1 rfl 0,
   (workers_start_after_sync true 1).2
     [RunEvent.informerStarted, RunEvent.cacheSynced] 0 [RunEvent.queueShutDown] rfl⟩

/-- C7 counterexample: with one worker, submit a task and request shutdown
(context cancelled); the cancelled state is reachable, and from it the
still-idle worker can take a step that pulls the pending task and begins
processing it — workers do not stop pulling new items once shutdown is
requested, because the Go select between ctx.Done and the task channel is
nondeterministic. -/
theorem worker_pulls_after_cancel :
    OReach 1 orchCancelled ∧ orchCancelled.cancelled = true ∧
    OStep orchCancelled orchPicked ∧
    orchPicked.workers = [OWorker.busy task0] ∧ orchPicked.taskQueue = [] :=
  ⟨OReach.step (OReach.step OReach.init (OStep.submit task0 (Orch.init 1) rfl))
      (OStep.cancel ((Orch.init 1).submit task0)),
   rfl,
   OStep.pick orchCancelled 0 task0 [] rfl rfl,
   rfl, rfl⟩

/-- A busy Orchestrator worker never stops in one step: handleTask runs to
completion before the worker can exit, so a step either leaves it busy on
the same task or returns it to idle after finishing. -/
theorem busy_worker_finishes {s s' : Orch} {i : Nat} {t : DeploymentTask}
    (hs : OStep s s') (hw : s.workers[i]? = some (OWorker.busy t)) :
    s'.workers[i]? = some (OWorker.busy t) ∨ s'.workers[i]? = some OWorker.idle := by
  cases hs with
  | submit t' s h => exact Or.inl hw
  | cancel s => exact Or.inl hw
  | pick s j t' rest hw' hq =>
    by_cases hij : j = i
    · subst hij
      rw [hw'] at hw
      simp at hw
    · left
      show (s.workers.set j (OWorker.busy t'))[i]? = some (OWorker.busy t)
      rw [List.getElem?_set_ne hij]
      exact hw
  | finish s j t' hw' =>
    by_cases hij : j = i
    · subst hij
      right
      show (s.workers.set j OWorker.idle)[j]? = some OWorker.idle
      exact List.getElem?_set_eq_of_lt _ (List.getElem?_eq_some.mp hw).1
    · left
      show (s.workers.set j OWorker.idle)[i]? = some (OWorker.busy t)
      rw [List.getElem?_set_ne hij]
      exact hw
  | stopWorker s j hw' hc =>
    by_cases hij : j = i
    · subst hij
      rw [hw'] at hw
      simp at hw
    · left
      show (s.workers.set j OWorker.stopped)[i]? = some (OWorker.busy t)
      rw [List.getElem?_set_ne hij]
      exact hw
  | closeQueue s hc hall => exact Or.inl hw

/-- In every reachable Orchestrator state, a closed channel means shutdown
completed: the context was cancelled and every worker has exited. -/
theorem closed_means_drained {n : Nat} {s : Orch} (h : OReach n s) :
    s.closed = true → s.cancelled = true ∧ ∀ w ∈ s.workers, w = OWorker.stopped := by
  induction h with
  | init => intro hc; simp [Orch.init] at hc
  | @step s1 s2 _ hs ih =>
    cases hs with
    | submit t _ hcl =>
      intro hc
      have hc' : s1.closed = true := hc
      rw [hcl] at hc'
      cases hc'
    | cancel =>
      intro hc
      have hc' : s1.closed = true := hc
      rcases ih hc' with ⟨_, hall⟩
      exact ⟨rfl, hall⟩
    | pick _ i t rest hw hq =>
      intro hc
      have hc' : s1.closed = true := hc
      rcases ih hc' with ⟨hcan, hall⟩
      have hmem : OWorker.idle ∈ s1.workers := List.getElem?_mem hw
      have := hall _ hmem
      simp at this
    | finish _ i t hw =>
      intro hc
      have hc' : s1.closed = true := hc
      rcases ih hc' with ⟨hcan, hall⟩
      have hmem : OWorker.busy t ∈ s1.workers := List.getElem?_mem hw
      have := hall _ hmem
      simp at this
    | stopWorker _ i hw hc' =>
      intro hc
      have hc2 : s1.closed = true := hc
      rcases ih hc2 with ⟨hcan, hall⟩
      refine ⟨hcan, ?_⟩
      intro w hwmem
      rcases List.mem_or_eq_of_mem_set hwmem with h1 | h2
      · exact hall _ h1
      · exact h2
    | closeQueue _ hc'' hall =>
      intro _
      exact ⟨hc'', hall⟩

/-- C7 (amended): once shutdown is requested a worker may still pull
pending items (the counterexample), but every worker finishes the item it
is currently processing before exiting — a busy worker never moves to
stopped in one step — and Shutdown's blocking wait is reflected in the
state: the channel is closed only once the context is cancelled and every
worker has exited. -/
theorem graceful_drain {n : Nat} {s : Orch} (h : OReach n s) :
    (s.closed = true → s.cancelled = true ∧ ∀ w ∈ s.workers, w = OWorker.stopped) ∧
    (∀ (s' : Orch) (i : Nat) (t : DeploymentTask),
      OStep s s' → s.workers[i]? = some (OWorker.busy t) →
      s'.workers[i]? = some (OWorker.busy t) ∨ s'.workers[i]? = some OWorker.idle) :=
  ⟨closed_means_drained h, fun _ _ _ hs hw => busy_worker_finishes hs hw⟩

/-- Witness: the graceful-drain theorem applied to the concrete fully
shut-down one-worker state. -/
theorem graceful_drain_witness :
    orchClosed.cancelled = true ∧ ∀ w ∈ orchClosed.workers, w = OWorker.stopped :=
  (graceful_drain (OReach.step (OReach.step (OReach.step OReach.init
      (OStep.cancel (Orch.init 1)))
      (OStep.stopWorker ((Orch.init 1).cancel) 0 rfl rfl))
      (OStep.closeQueue (((Orch.init 1).cancel).stopWorker 0) rfl (by decide)))).1 rfl

/-- C9 counterexample: after the Orchestrator's Shutdown has closed the
task channel, a subsequent SubmitTask is a send on a closed channel: the
task is not enqueued and the call raises the runtime panic, crashing the
process — contrary to the claim that it does not crash. -/
theorem submit_after_shutdown_panics :
    SubmitTask orchClosed task0 = .error GoPanic.sendOnClosedChannel ∧
    orchClosed.closed = true :=
  ⟨rfl, rfl⟩

/-- C9 (amended): after ShutDown the rate-limiting work queue accepts no
further enqueues — Add is an exact no-op — and a Get on the drained queue
returns the closed signal; the Orchestrator's SubmitTask after Shutdown,
by contrast, is not safely rejected: it panics with a send on the closed
channel. -/
theorem shutdown_closure {q : WQ} {s : Orch} (k : Key) (t : DeploymentTask)
    (hq : q.shuttingDown = true) (hs : s.closed = true) :
    q.add k = q ∧ (q.queue = [] → q.getSignal = GetResult.closed) ∧
    SubmitTask s t = .error GoPanic.sendOnClosedChannel := by
  refine ⟨WQ.add_of_shuttingDown hq, ?_, ?_⟩
  · intro he
    simp [WQ.getSignal, he, hq]
  · simp [SubmitTask, hs]

/-- Witness: shutdown closure at a concrete drained queue and the concrete
fully shut-down Orchestrator state. -/
theorem shutdown_closure_witness :
    ({ queue := [], dirty := [], processing := [], shuttingDown := true } : WQ).add 3
      = { queue := [], dirty := [], processing := [], shuttingDown := true } ∧
    (({ queue := [], dirty := [], processing := [], shuttingDown := true } : WQ).queue = [] →
      ({ queue := [], dirty := [], processing := [], shuttingDown := true } : WQ).getSignal
        = GetResult.closed) ∧
    SubmitTask orchClosed task0 = .error GoPanic.sendOnClosedChannel :=
  shutdown_closure 3 task0 rfl rfl

end AgentDeploy
